import Mathlib

/-!
Verification of the session layer implemented in src/cqlengine_session.py.

The development shallowly embeds the data model and the operations of the
session engine: the identity map (IdMapMetaClass.__call__), the query result
binder (IdMapModel._construct_instance), the flush engine (Session.save), the
counter descriptor (CounterColumnDescriptor), the owned container types
(OwnedSet, OwnedList, OwnedMap), default resolution in IdMapModel.create and
ColumnDescriptor.__delete__.  Python dictionaries are modelled as association
lists in insertion order, object identity as numeric instance ids, and
attribute deletion or absence (hasattr, del) as Option.  External collaborator
behaviour (the cqlengine column conversions to_python, the builtin container
operations, the storage engine) is abstracted by function parameters or, where
the specification describes the interface, by definitions marked as modelled
from the spec.
-/

namespace CQLSession

/-- Python scalar values appearing in column value maps. -/
inductive PyVal where
  | none
  | int (n : Int)
  | str (s : String)
  | boolean (b : Bool)
  deriving DecidableEq, Repr

/-- Python truthiness of a scalar value, as used by "if col.default:" and
"value or 0" in the source. -/
def PyVal.truthy : PyVal → Bool
  | .none => false
  | .int n => n != 0
  | .str s => s != ""
  | .boolean b => b

/-- Exception classes raised by the source (AttributeUnavailable is the class
defined at the top of the module; the rest are Python builtins). -/
inductive PyError where
  | attributeError
  | attributeUnavailable
  | keyError
  | typeError
  | valueError
  | notImplementedError
  deriving DecidableEq, Repr

/-- Lookup in a Python dictionary modelled as an association list
(first match; insertion order preserved). -/
def alookup {κ β : Type} [DecidableEq κ] : List (κ × β) → κ → Option β
  | [], _ => Option.none
  | p :: t, x => if p.1 = x then some p.2 else alookup t x

/-- Dictionary assignment d[k] = v: replace in place if the key is present,
append otherwise (Python dictionaries keep insertion order). -/
def upsert {κ β : Type} [DecidableEq κ] : List (κ × β) → κ → β → List (κ × β)
  | [], k, v => [(k, v)]
  | p :: t, k, v => if p.1 = k then (k, v) :: t else p :: upsert t k v

/-! Identity map (claim C1).

Session.instances_by_class maps a model class to a dictionary taking the
primary key tuple to the row entity.  Entities are identified by numeric ids
(two entities are the same in-memory object exactly when their ids agree);
nextId is the allocator for fresh instances. -/

/-- State of the identity map of one session: instances_by_class, with
entities abstracted to allocation ids. -/
structure IdMapState where
  nextId : Nat
  byClass : List (Nat × List (List PyVal × Nat))
  deriving DecidableEq, Repr

/-- Lookup of the registered instance for a class and key tuple. -/
def imFind (s : IdMapState) (cls : Nat) (key : List PyVal) : Option Nat :=
  match alookup s.byClass cls with
  | some byKey => alookup byKey key
  | Option.none => Option.none

/-- IdMapMetaClass.__call__: if an instance for the key is registered return
it, otherwise construct a fresh instance, register it under the key and
return it. -/
def idMapCall (s : IdMapState) (cls : Nat) (key : List PyVal) : Nat × IdMapState :=
  match alookup s.byClass cls with
  | some byKey =>
    match alookup byKey key with
    | some inst => (inst, s)
    | Option.none =>
      (s.nextId, ⟨s.nextId + 1, upsert s.byClass cls (upsert byKey key s.nextId)⟩)
  | Option.none =>
    (s.nextId, ⟨s.nextId + 1, upsert s.byClass cls [(key, s.nextId)]⟩)

/-- Well-formedness of an identity map state: registered ids are below the
allocator, and no id is registered under two different (class, key) pairs. -/
def IdMapWF (s : IdMapState) : Prop :=
  (∀ c k i, imFind s c k = some i → i < s.nextId) ∧
  (∀ c k c2 k2 i, imFind s c k = some i → imFind s c2 k2 = some i → c = c2 ∧ k = k2)

/-! Row entities and the query result binder (claims C2 and C10). -/

/-- Schema description of one column as consumed by _construct_instance.
The conversions to_python and the owned container construction are external
cqlengine and builtin behaviour and are abstracted as functions. -/
structure MCol where
  primaryKey : Bool
  isContainer : Bool
  toPython : PyVal → PyVal
  wrap : PyVal → PyVal

/-- A row entity: _values (clean, promoted data) and _dirties (pending local
edits; Option.none models the attribute not existing on the instance). -/
structure MEnt where
  values : List (String × PyVal)
  dirties : Option (List (String × PyVal))
  deriving DecidableEq, Repr

/-- Names of the primary key columns, in declaration order. -/
def pkNames (schema : List (String × MCol)) : List String :=
  (schema.filter (fun nc => nc.2.primaryKey)).map (fun nc => nc.1)

/-- IdMapModel._promote: set a value without marking the column dirty. -/
def promoteE (e : MEnt) (name : String) (v : PyVal) : MEnt :=
  { e with values := upsert e.values name v }

/-- Key extraction in _construct_instance: for every primary key column, in
order, convert the value found in the result row; a missing key column raises
KeyError. -/
def constructKey (schema : List (String × MCol)) (rowMap : List (String × PyVal)) :
    Except PyError (List PyVal) :=
  (schema.filter (fun nc => nc.2.primaryKey)).mapM (fun nc =>
    match alookup rowMap nc.1 with
    | some v => Except.ok (nc.2.toPython v)
    | Option.none => Except.error PyError.keyError)

/-- IdMapModel.__init__ for a blind handle: promote the key fields pairwise
with the primary key names. -/
def blindEntity (schema : List (String × MCol)) (key : List PyVal) : MEnt :=
  ⟨((pkNames schema).zip key).foldl (fun acc nv => upsert acc nv.1 nv.2) [], Option.none⟩

/-- Cleaning of one result value in _construct_instance: container columns are
wrapped into an owned container over the converted value; other columns are
converted unless the value is Python None. -/
def cleanedValue (col : MCol) (v : PyVal) : PyVal :=
  if col.isContainer then col.wrap (col.toPython v)
  else if v = PyVal.none then v
  else col.toPython v

/-- The cleaned_values dictionary of _construct_instance: result columns in
row order, skipping primary keys and columns absent from the schema. -/
def cleanedRow (schema : List (String × MCol)) (rowMap : List (String × PyVal)) :
    List (String × PyVal) :=
  rowMap.filterMap (fun nv =>
    if nv.1 ∈ pkNames schema then Option.none
    else
      match alookup schema nv.1 with
      | Option.none => Option.none
      | some col => some (nv.1, cleanedValue col nv.2))

/-- Keys of the _dirties dictionary (empty when the attribute is absent,
matching the EMPTY sentinel of the source). -/
def dirtyKeys (e : MEnt) : List String :=
  match e.dirties with
  | Option.none => []
  | some ds => ds.map (fun nv => nv.1)

/-- Promotion loop of _construct_instance: promote every cleaned value whose
name is neither a primary key nor in the dirty set of the entity. -/
def mergePromote (pk dk : List String) (e : MEnt) (cleaned : List (String × PyVal)) : MEnt :=
  cleaned.foldl (fun e nv => if nv.1 ∈ pk ∨ nv.1 ∈ dk then e else promoteE e nv.1 nv.2) e

/-- IdMapModel._construct_instance: compute the key, fetch the entity for the
key from the session (or construct and register a blind one), then merge the
cleaned result values, skipping dirty columns.  The session maps key tuples to
entities of a single model class. -/
def constructInstance (schema : List (String × MCol)) (sess : List (List PyVal × MEnt))
    (names : List String) (vals : List PyVal) :
    Except PyError (List (List PyVal × MEnt) × MEnt) :=
  let rowMap := names.zip vals
  match constructKey schema rowMap with
  | Except.error e => Except.error e
  | Except.ok key =>
    let e0 := match alookup sess key with
      | some e => e
      | Option.none => blindEntity schema key
    let e1 := mergePromote (pkNames schema) (dirtyKeys e0) e0 (cleanedRow schema rowMap)
    Except.ok (upsert sess key e1, e1)

/-- ColumnDescriptor.__delete__ on an instance (instances of IdMapModel define
neither __bool__ nor __len__, so the "if instance:" guard always takes the
truthy branch): raise NotImplementedError when the column can be deleted and
AttributeError otherwise, leaving the entity untouched. -/
def columnDelete (canDelete : Bool) (e : MEnt) : MEnt × Option PyError :=
  (e, some (if canDelete then PyError.notImplementedError else PyError.attributeError))

/-! Flush engine (claims C3 and C5).

Entities carry the data Session.save inspects: the class level _has_counter
flag, the _created marker and the _dirties dictionary.  Exec events record the
operations the flush hands to the storage engine, in program order; the
batched insert and update statements only execute when the BatchQuery context
exits, which the single batchExec event marks. -/

/-- Flush-relevant state of one entity. -/
structure SEnt where
  id : Nat
  hasCounter : Bool
  created : Bool
  dirties : Option (List (String × PyVal))
  deriving DecidableEq, Repr

/-- Operations recorded while Session.save runs. -/
inductive SaveEvent where
  | batchInsert (i : Nat)
  | batchUpdate (i : Nat) (dirties : List (String × PyVal))
  | batchExec
  | execInsert (i : Nat)
  | execCounterWrite (i : Nat)
  | execCounterUpdate (i : Nat) (dirties : List (String × PyVal))
  deriving DecidableEq, Repr

/-- First entity with the given id. -/
def findEnt : List SEnt → Nat → Option SEnt
  | [], _ => Option.none
  | e :: t, i => if e.id = i then some e else findEnt t i

/-- In-place mutation of the entity with the given id. -/
def setEnt : List SEnt → Nat → (SEnt → SEnt) → List SEnt
  | [], _, _ => []
  | e :: t, i, f => (if e.id = i then f e else e) :: setEnt t i f

/-- del instance._created followed by deleting _dirties if present. -/
def clearCreatedDirties (e : SEnt) : SEnt :=
  { e with created := false, dirties := Option.none }

/-- del instance._dirties. -/
def clearDirtiesE (e : SEnt) : SEnt :=
  { e with dirties := Option.none }

/-- The Python expression "bucket and objects" used by Session.save when a
non-empty objects tuple is passed: an empty bucket is returned unchanged and a
non-empty bucket is replaced wholesale by the objects tuple (boolean and, not
an intersection). -/
def pyAnd (bucket objs : List Nat) : List Nat :=
  if bucket.isEmpty then bucket else objs

/-- Members of the session satisfying a bucket predicate, in session order. -/
def bucketOf (heap : List SEnt) (sess : List Nat) (p : SEnt → Bool) : List Nat :=
  sess.filter (fun i =>
    match findEnt heap i with
    | some e => p e
    | Option.none => false)

/-- The four flush buckets of Session.save. -/
structure Buckets where
  creates : List Nat
  updates : List Nat
  counterCreates : List Nat
  counterUpdates : List Nat
  deriving DecidableEq, Repr

/-- Bucket partition of Session.save: created entities go to the create
buckets, other entities with a _dirties attribute to the update buckets,
split by the _has_counter flag; with a non-empty objects argument every
non-empty bucket is then replaced by the objects tuple via pyAnd. -/
def saveBuckets (heap : List SEnt) (sess objs : List Nat) : Buckets :=
  let cs := bucketOf heap sess (fun e => e.created && !e.hasCounter)
  let ccs := bucketOf heap sess (fun e => e.created && e.hasCounter)
  let us := bucketOf heap sess (fun e => !e.created && e.dirties.isSome && !e.hasCounter)
  let cus := bucketOf heap sess (fun e => !e.created && e.dirties.isSome && e.hasCounter)
  if objs.isEmpty then ⟨cs, us, ccs, cus⟩
  else ⟨pyAnd cs objs, pyAnd us objs, pyAnd ccs objs, pyAnd cus objs⟩

/-- Loop over the creates bucket: build the insert statement, add it to the
batch, then del create._created (AttributeError when the attribute is absent)
and del create._dirties inside a try that ignores AttributeError.  The
statement construction from the column values is external and not modelled;
only the batched operation is recorded. -/
def createsPhase : List Nat → List SEnt → Except PyError (List SaveEvent × List SEnt)
  | [], st => Except.ok ([], st)
  | i :: t, st =>
    match findEnt st i with
    | Option.none => Except.error PyError.keyError
    | some e =>
      if e.created then
        match createsPhase t (setEnt st i clearCreatedDirties) with
        | Except.ok (evs, fin) => Except.ok (SaveEvent.batchInsert i :: evs, fin)
        | Except.error err => Except.error err
      else Except.error PyError.attributeError

/-- Loop over the updates bucket: read update._dirties (AttributeError when
absent), add the update statement to the batch, del update._dirties. -/
def updatesPhase : List Nat → List SEnt → Except PyError (List SaveEvent × List SEnt)
  | [], st => Except.ok ([], st)
  | i :: t, st =>
    match findEnt st i with
    | Option.none => Except.error PyError.keyError
    | some e =>
      match e.dirties with
      | Option.none => Except.error PyError.attributeError
      | some ds =>
        match updatesPhase t (setEnt st i clearDirtiesE) with
        | Except.ok (evs, fin) => Except.ok (SaveEvent.batchUpdate i ds :: evs, fin)
        | Except.error err => Except.error err

/-- Loop over the counter creates: the insert of the key columns executes
immediately (id_mapped_class.create), the counter values are copied onto the
fresh cqlengine instance, the markers are deleted, then instance.update()
writes the counters. -/
def counterCreatesPhase : List Nat → List SEnt → Except PyError (List SaveEvent × List SEnt)
  | [], st => Except.ok ([], st)
  | i :: t, st =>
    match findEnt st i with
    | Option.none => Except.error PyError.keyError
    | some e =>
      if e.created then
        match counterCreatesPhase t (setEnt st i clearCreatedDirties) with
        | Except.ok (evs, fin) =>
          Except.ok (SaveEvent.execInsert i :: SaveEvent.execCounterWrite i :: evs, fin)
        | Except.error err => Except.error err
      else Except.error PyError.attributeError

/-- Loop over the counter updates: build an update statement with one counter
update clause per dirty entry (AttributeError when _dirties is absent),
execute it, then del update._dirties. -/
def counterUpdatesPhase : List Nat → List SEnt → Except PyError (List SaveEvent × List SEnt)
  | [], st => Except.ok ([], st)
  | i :: t, st =>
    match findEnt st i with
    | Option.none => Except.error PyError.keyError
    | some e =>
      match e.dirties with
      | Option.none => Except.error PyError.attributeError
      | some ds =>
        match counterUpdatesPhase t (setEnt st i clearDirtiesE) with
        | Except.ok (evs, fin) => Except.ok (SaveEvent.execCounterUpdate i ds :: evs, fin)
        | Except.error err => Except.error err

/-- Session state when the BatchQuery context exits, which is the moment the
batched inserts and updates actually execute: the creates and updates loops
have both run at that point. -/
def batchState (heap : List SEnt) (sess objs : List Nat) : Except PyError (List SEnt) :=
  let b := saveBuckets heap sess objs
  match createsPhase b.creates heap with
  | Except.error e => Except.error e
  | Except.ok (_, st1) =>
    match updatesPhase b.updates st1 with
    | Except.error e => Except.error e
    | Except.ok (_, st2) => Except.ok st2

/-- Session.save: partition into buckets, run the creates and updates loops
inside the batch context (the batch executes at context exit, recorded as the
batchExec event), then the counter creates and the counter updates, each of
which executes individually. -/
def saveRun (heap : List SEnt) (sess objs : List Nat) :
    Except PyError (List SaveEvent × List SEnt) :=
  let b := saveBuckets heap sess objs
  match createsPhase b.creates heap with
  | Except.error e => Except.error e
  | Except.ok (evC, st1) =>
    match updatesPhase b.updates st1 with
    | Except.error e => Except.error e
    | Except.ok (evU, st2) =>
      match counterCreatesPhase b.counterCreates st2 with
      | Except.error e => Except.error e
      | Except.ok (evCC, st3) =>
        match counterUpdatesPhase b.counterUpdates st3 with
        | Except.error e => Except.error e
        | Except.ok (evCU, st4) =>
          Except.ok (evC ++ evU ++ SaveEvent.batchExec :: (evCC ++ evCU), st4)

/-! Counter columns (claims C4 and C8). -/

/-- Counter-relevant state of an entity: the _values and _dirties
dictionaries, each possibly absent. -/
structure CtrInst where
  values : Option (List (String × PyVal))
  dirties : Option (List (String × PyVal))
  deriving DecidableEq, Repr

/-- CounterColumnDescriptor.__get__: read _values[name], raising
AttributeUnavailable when the dictionary or the key is absent; a falsy stored
value reads as 0 ("existing_value or 0"); the result is wrapped in a
WrappedInt, which is an int. -/
def counterGet (values : Option (List (String × PyVal))) (name : String) :
    Except PyError Int :=
  match values with
  | Option.none => Except.error PyError.attributeUnavailable
  | some vs =>
    match alookup vs name with
    | Option.none => Except.error PyError.attributeUnavailable
    | some v =>
      match (if v.truthy then v else PyVal.int 0) with
      | PyVal.int n => Except.ok n
      | _ => Except.error PyError.valueError

/-- An increment handle.name += d: the descriptor __get__ runs first (so a
missing value raises AttributeUnavailable before anything changes), the
WrappedInt __iadd__ turns the assignment into a WrappedResponse carrying only
the delta, and the descriptor __set__ then adds the delta to the stored clean
value and to the dirty delta accumulator, creating the dirty entry when it is
absent.  Adding the delta to a stored non-integer raises (the source would
raise at the += on the stored value; the exact Python exception class is
immaterial here). -/
def counterIncr (inst : CtrInst) (name : String) (d : Int) : Except PyError CtrInst :=
  match inst.values with
  | Option.none => Except.error PyError.attributeUnavailable
  | some vs =>
    match alookup vs name with
    | Option.none => Except.error PyError.attributeUnavailable
    | some v =>
      match v with
      | PyVal.int n =>
        let vs1 := upsert vs name (PyVal.int (n + d))
        match inst.dirties with
        | Option.none => Except.ok ⟨some vs1, some [(name, PyVal.int d)]⟩
        | some ds =>
          match alookup ds name with
          | Option.none => Except.ok ⟨some vs1, some (upsert ds name (PyVal.int d))⟩
          | some (PyVal.int m) =>
            Except.ok ⟨some vs1, some (upsert ds name (PyVal.int (m + d)))⟩
          | some _ => Except.error PyError.typeError
      | _ => Except.error PyError.typeError

/-- Successive increments without an intervening flush. -/
def counterIncrAll (inst : CtrInst) (name : String) (ds : List Int) :
    Except PyError CtrInst :=
  ds.foldlM (fun i d => counterIncr i name d) inst

/-- Modelled from the spec: the storage engine applies a counter update clause
additively, the new stored value being the prior stored value plus the delta
carried by the clause (CounterUpdateClause lives in cqlengine, outside this
repository; the spec describes counter writes as signed deltas relative to the
stored value). -/
def applyCounterDelta (stored delta : Int) : Int := stored + delta

/-! Deferred callbacks (claim C6).

An entry of call_after_save is registered as (callable, args, kwargs); the id
stands for that captured triple.  The second component lists the callbacks the
callable itself registers via add_call_after_save when invoked; callbacks
registered that way register nothing further here.  Session.save iterates the
live list (a Python for loop over a list visits elements appended during the
iteration), so the queue is consumed in first-in-first-out order with appends
landing at the end; afterwards call_after_save is reset to a fresh empty
list. -/

/-- Weight of a callback queue, used to justify termination of the live
iteration. -/
def cbMeasure : List (Nat × List Nat) → Nat
  | [] => 0
  | e :: t => 1 + e.2.length + cbMeasure t

/-- The callback loop of Session.save: invoke the head, append whatever it
registers to the end of the queue, continue; the returned list is the
invocation order. -/
def runCb : List (Nat × List Nat) → List Nat
  | [] => []
  | e :: rest => e.1 :: runCb (rest ++ e.2.map (fun s => (s, ([] : List Nat))))
termination_by q => cbMeasure q
decreasing_by
  have happ : ∀ a b : List (Nat × List Nat), cbMeasure (a ++ b) = cbMeasure a + cbMeasure b := by
    intro a b
    induction a with
    | nil => simp [cbMeasure]
    | cons x t ih => simp [cbMeasure, ih]; omega
  have hmap : ∀ l : List Nat,
      cbMeasure (l.map (fun s => (s, ([] : List Nat)))) = l.length := by
    intro l
    induction l with
    | nil => simp [cbMeasure]
    | cons x t ih => simp [cbMeasure, ih]; omega
  simp [happ, hmap, cbMeasure]
  omega

/-- The callback phase of one flush: the invocations it performs and the queue
it leaves behind (call_after_save = [] after the loop). -/
def flushCallbacks (q : List (Nat × List Nat)) : List Nat × List (Nat × List Nat) :=
  (runCb q, [])

/-! Owned containers (claim C7).

OwnedSet, OwnedList and OwnedMap subclass the builtin container types and
define, in their class bodies, a specific list of mutating methods; each of
those calls mark_dirty, which stores the container itself (a reference) under
the column name in the owner _dirties dictionary, and only then delegates to
the builtin operation.  A mutating method NOT defined in the class body
resolves to the builtin C implementation, which neither calls mark_dirty nor
dispatches to the overridden Python methods: dict and list __delitem__, the
list methods __delslice__, __iadd__ and __imul__, and the set in-place
operators __ior__, __iand__, __isub__ and __ixor__ mutate the container with
no dirty marking.  Contents are modelled concretely (sets as duplicate-free
integer lists, lists as integer lists, maps as association lists); ownerDirty
records whether the owner dirty entry for the column references this
container, so a flush reading the dirty entry sees the current contents. -/

/-- An owned container bound to one owner and column name. -/
structure Owned (α : Type) where
  contents : α
  ownerDirty : Bool

/-- mark_dirty: self.owner._mark_dirty(self.name, self). -/
def markDirty {α : Type} (s : Owned α) : Owned α :=
  { s with ownerDirty := true }

/-- Delegation to the builtin mutation. -/
def superMutate {α : Type} (m : α → α) (s : Owned α) : Owned α :=
  { s with contents := m s.contents }

/-- One mutating method call on an owned container: a method defined in the
Owned class body calls mark_dirty first and then performs the builtin
mutation; a method inherited from the builtin type performs the mutation
alone. -/
def applyOwnedMethod {α : Type} (overridden : Bool) (m : α → α) (s : Owned α) : Owned α :=
  if overridden then superMutate m (markDirty s) else superMutate m s

/-- A sequence of mutating method calls on one owned container, each marked
as overridden or inherited by the table overr and with builtin contents
semantics sem. -/
def runOwnedMethods {Op α : Type} (overr : Op → Bool) (sem : Op → α → α)
    (ops : List Op) (s : Owned α) : Owned α :=
  ops.foldl (fun s op => applyOwnedMethod (overr op) (sem op) s) s

/-- What a flush sees for the column: when marked, the dirty entry references
the container itself, so the value read at flush time is the current full
contents; when never marked, the flush sees nothing for the column. -/
def flushValue {α : Type} (s : Owned α) : Option α :=
  if s.ownerDirty then some s.contents else Option.none

/-- The mutating operations reaching an OwnedSet.  The first nine are the
methods the class body defines (add, remove, discard, clear, pop,
difference_update, intersection_update, symmetric_difference_update, update);
ior, iand, isub and ixor are the in-place operators inherited from the
builtin set. -/
inductive SetOp where
  | add (x : Int)
  | remove (x : Int)
  | discard (x : Int)
  | clear
  | pop
  | difference_update (xs : List Int)
  | intersection_update (xs : List Int)
  | symmetric_difference_update (xs : List Int)
  | update (xs : List Int)
  | ior (xs : List Int)
  | iand (xs : List Int)
  | isub (xs : List Int)
  | ixor (xs : List Int)
  deriving DecidableEq, Repr

/-- Builtin set semantics of each operation on the contents (Python sets are
unordered; pop removes an arbitrary element, modelled as the first). -/
def SetOp.contents : SetOp → List Int → List Int
  | .add x, s => if s.contains x then s else s ++ [x]
  | .remove x, s => s.erase x
  | .discard x, s => s.erase x
  | .clear, _ => []
  | .pop, s => s.drop 1
  | .difference_update xs, s => s.filter (fun a => !(xs.contains a))
  | .intersection_update xs, s => s.filter (fun a => xs.contains a)
  | .symmetric_difference_update xs, s =>
      s.filter (fun a => !(xs.contains a)) ++ xs.filter (fun a => !(s.contains a))
  | .update xs, s => xs.foldl (fun acc x => if acc.contains x then acc else acc ++ [x]) s
  | .ior xs, s => xs.foldl (fun acc x => if acc.contains x then acc else acc ++ [x]) s
  | .iand xs, s => s.filter (fun a => xs.contains a)
  | .isub xs, s => s.filter (fun a => !(xs.contains a))
  | .ixor xs, s =>
      s.filter (fun a => !(xs.contains a)) ++ xs.filter (fun a => !(s.contains a))

/-- Whether the OwnedSet class body defines the method (and hence calls
mark_dirty before delegating). -/
def SetOp.overridden : SetOp → Bool
  | .ior _ => false
  | .iand _ => false
  | .isub _ => false
  | .ixor _ => false
  | _ => true

/-- A sequence of mutating calls on one OwnedSet. -/
def runSetOps (ops : List SetOp) (s : Owned (List Int)) : Owned (List Int) :=
  runOwnedMethods SetOp.overridden SetOp.contents ops s

/-- OwnedSet.remove including the failure path of the builtin part:
mark_dirty runs first, then the builtin remove raises KeyError when the
element is missing, leaving the contents unchanged but the dirty mark set;
the Bool reports success. -/
def setRemoveTry (x : Int) (s : Owned (List Int)) : Owned (List Int) × Bool :=
  let s1 := markDirty s
  if s1.contents.contains x then (superMutate (fun c => c.erase x) s1, true)
  else (s1, false)

/-- Insertion into a sorted integer list, used for the builtin list sort. -/
def insertSorted (x : Int) : List Int → List Int
  | [] => [x]
  | y :: t => if x ≤ y then x :: y :: t else y :: insertSorted x t

/-- Builtin ascending sort on integer lists. -/
def sortInts (l : List Int) : List Int :=
  l.foldr insertSorted []

/-- The mutating operations reaching an OwnedList.  The first nine are the
methods the class body defines (setitem, setslice, append, extend, insert,
pop, remove, reverse, sort); delitem, delslice, iadd and imul are inherited
from the builtin list. -/
inductive ListOp where
  | setitem (i : Nat) (v : Int)
  | setslice (i j : Nat) (vs : List Int)
  | append (v : Int)
  | extend (vs : List Int)
  | insert (i : Nat) (v : Int)
  | pop
  | remove (v : Int)
  | reverse
  | sort
  | delitem (i : Nat)
  | delslice (i j : Nat)
  | iadd (vs : List Int)
  | imul (n : Nat)
  deriving DecidableEq, Repr

/-- Builtin list semantics of each operation on the contents. -/
def ListOp.contents : ListOp → List Int → List Int
  | .setitem i v, l => l.set i v
  | .setslice i j vs, l => l.take i ++ vs ++ l.drop j
  | .append v, l => l ++ [v]
  | .extend vs, l => l ++ vs
  | .insert i v, l => l.take i ++ [v] ++ l.drop i
  | .pop, l => l.dropLast
  | .remove v, l => l.erase v
  | .reverse, l => l.reverse
  | .sort, l => sortInts l
  | .delitem i, l => l.eraseIdx i
  | .delslice i j, l => l.take i ++ l.drop j
  | .iadd vs, l => l ++ vs
  | .imul n, l => (List.replicate n l).flatten

/-- Whether the OwnedList class body defines the method. -/
def ListOp.overridden : ListOp → Bool
  | .delitem _ => false
  | .delslice _ _ => false
  | .iadd _ => false
  | .imul _ => false
  | _ => true

/-- A sequence of mutating calls on one OwnedList. -/
def runListOps (ops : List ListOp) (s : Owned (List Int)) : Owned (List Int) :=
  runOwnedMethods ListOp.overridden ListOp.contents ops s

/-- The mutating operations reaching an OwnedMap.  The first six are the
methods the class body defines (setitem, clear, pop, popitem, update,
setdefault; the class also defines a bogus remove and a non-mutating copy,
omitted here); delitem is inherited from the builtin dict. -/
inductive MapOp where
  | setitem (k : String) (v : Int)
  | clear
  | pop (k : String)
  | popitem
  | update (kvs : List (String × Int))
  | setdefault (k : String) (v : Int)
  | delitem (k : String)
  deriving DecidableEq, Repr

/-- Builtin dict semantics of each operation on the contents (popitem removes
an arbitrary entry, modelled as the first). -/
def MapOp.contents : MapOp → List (String × Int) → List (String × Int)
  | .setitem k v, m => upsert m k v
  | .clear, _ => []
  | .pop k, m => m.filter (fun p => p.1 != k)
  | .popitem, m => m.drop 1
  | .update kvs, m => kvs.foldl (fun acc p => upsert acc p.1 p.2) m
  | .setdefault k v, m =>
      match alookup m k with
      | some _ => m
      | Option.none => m ++ [(k, v)]
  | .delitem k, m => m.filter (fun p => p.1 != k)

/-- Whether the OwnedMap class body defines the method. -/
def MapOp.overridden : MapOp → Bool
  | .delitem _ => false
  | _ => true

/-- A sequence of mutating calls on one OwnedMap. -/
def runMapOps (ops : List MapOp) (s : Owned (List (String × Int))) :
    Owned (List (String × Int)) :=
  runOwnedMethods MapOp.overridden MapOp.contents ops s

/-! Default resolution in IdMapModel.create (claim C9). -/

/-- A declared column default: a plain value or a callable factory (a callable
is always truthy; the factory result is the value it returns). -/
inductive ColDefault where
  | value (v : PyVal)
  | factory (v : PyVal)
  deriving DecidableEq, Repr

/-- Column description consumed by create. -/
structure CreateCol where
  isCounter : Bool
  primaryKey : Bool
  default : Option ColDefault
  deriving DecidableEq, Repr

/-- The branches taken when no (truthy) default applies: counters get 0,
missing primary keys raise ValueError, everything else gets Python None
(container columns later wrap that None into an empty owned container). -/
def createFallback (col : CreateCol) : Except PyError PyVal :=
  if col.isCounter then Except.ok (PyVal.int 0)
  else if col.primaryKey then Except.error PyError.valueError
  else Except.ok PyVal.none

/-- Value resolution for one column in IdMapModel.create: a supplied keyword
wins; otherwise "if col.default:" tests the truthiness of the default object
(a callable default is truthy and is called), falling back to the counter,
primary key and None branches. -/
def createResolve (col : CreateCol) (supplied : Option PyVal) : Except PyError PyVal :=
  match supplied with
  | some v => Except.ok v
  | Option.none =>
    match col.default with
    | Option.none => createFallback col
    | some (ColDefault.factory v) => Except.ok v
    | some (ColDefault.value v) => if v.truthy then Except.ok v else createFallback col

/-! Theorems.  Helper lemmas about the dictionary model come first, then the
claims, in order. -/

theorem alookup_upsert_self {κ β : Type} [DecidableEq κ] (l : List (κ × β)) (k : κ) (v : β) :
    alookup (upsert l k v) k = some v := by
  induction l with
  | nil => simp [upsert, alookup]
  | cons p t ih =>
    by_cases h : p.1 = k
    · simp [upsert, h, alookup]
    · simp [upsert, h, alookup, ih]

theorem alookup_upsert_ne {κ β : Type} [DecidableEq κ] (l : List (κ × β)) (k x : κ) (v : β)
    (h : x ≠ k) :
    alookup (upsert l k v) x = alookup l x := by
  induction l with
  | nil => simp [upsert, alookup, Ne.symm h]
  | cons p t ih =>
    by_cases hp : p.1 = k
    · subst hp
      simp [upsert, alookup, Ne.symm h]
    · simp only [upsert, if_neg hp, alookup]
      by_cases hx : p.1 = x
      · simp [hx]
      · simp [hx, ih]

theorem alookup_mem {κ β : Type} [DecidableEq κ] {l : List (κ × β)} {k : κ} {v : β}
    (h : alookup l k = some v) : (k, v) ∈ l := by
  induction l with
  | nil => simp [alookup] at h
  | cons p t ih =>
    obtain ⟨p1, p2⟩ := p
    by_cases hp : p1 = k
    · subst hp
      simp only [alookup, if_pos rfl] at h
      cases h
      exact List.mem_cons_self _ _
    · simp only [alookup, if_neg hp] at h
      exact List.mem_cons_of_mem _ (ih h)

/-! Claim C1: the identity map. -/

theorem imFind_idMapCall (s : IdMapState) (c : Nat) (k : List PyVal) (c2 : Nat)
    (k2 : List PyVal) :
    imFind (idMapCall s c k).2 c2 k2 =
      if c2 = c ∧ k2 = k then some (idMapCall s c k).1 else imFind s c2 k2 := by
  unfold idMapCall
  cases hc : alookup s.byClass c with
  | none =>
    simp only [hc, imFind]
    by_cases h2 : c2 = c
    · subst h2
      rw [alookup_upsert_self]
      by_cases hk2 : k2 = k
      · subst hk2
        simp [alookup, hc]
      · simp [alookup, Ne.symm hk2, hk2, hc]
    · rw [alookup_upsert_ne _ _ _ _ h2]
      simp [h2]
  | some byKey =>
    cases hk : alookup byKey k with
    | some inst =>
      simp only [hc, hk, imFind]
      by_cases h2 : c2 = c
      · subst h2
        by_cases hk2 : k2 = k
        · subst hk2
          simp [hc, hk]
        · simp [hc, hk2]
      · simp [h2]
    | none =>
      simp only [hc, hk, imFind]
      by_cases h2 : c2 = c
      · subst h2
        rw [alookup_upsert_self]
        by_cases hk2 : k2 = k
        · subst hk2
          simp [alookup_upsert_self, hc]
        · simp [alookup_upsert_ne _ _ _ _ hk2, hk2, hc]
      · simp [alookup_upsert_ne _ _ _ _ h2, h2]

theorem idMapCall_found {s : IdMapState} {c : Nat} {k : List PyVal} {i : Nat}
    (h : imFind s c k = some i) : idMapCall s c k = (i, s) := by
  unfold imFind at h
  unfold idMapCall
  cases hc : alookup s.byClass c with
  | none => simp [hc] at h
  | some byKey =>
    cases hk : alookup byKey k with
    | none => simp [hc, hk] at h
    | some j =>
      simp only [hc, hk] at h ⊢
      cases h
      rfl

theorem idMapCall_fresh {s : IdMapState} {c : Nat} {k : List PyVal}
    (h : imFind s c k = Option.none) :
    (idMapCall s c k).1 = s.nextId ∧ (idMapCall s c k).2.nextId = s.nextId + 1 := by
  unfold imFind at h
  unfold idMapCall
  cases hc : alookup s.byClass c with
  | none => simp [hc]
  | some byKey =>
    cases hk : alookup byKey k with
    | none => simp [hc, hk]
    | some j => simp [hc, hk] at h

theorem idMapWF_call (s : IdMapState) (h : IdMapWF s) (c : Nat) (k : List PyVal) :
    IdMapWF (idMapCall s c k).2 := by
  cases hf : imFind s c k with
  | some i =>
    rw [idMapCall_found hf]
    exact h
  | none =>
    obtain ⟨h1, h2⟩ := idMapCall_fresh hf
    constructor
    · intro c2 k2 i hi
      rw [imFind_idMapCall] at hi
      rw [h2]
      by_cases hcase : c2 = c ∧ k2 = k
      · rw [if_pos hcase] at hi
        cases hi
        omega
      · rw [if_neg hcase] at hi
        have := h.1 c2 k2 i hi
        omega
    · intro c2 k2 c3 k3 i hi hj
      rw [imFind_idMapCall] at hi hj
      by_cases hcase2 : c2 = c ∧ k2 = k
      · rw [if_pos hcase2] at hi
        by_cases hcase3 : c3 = c ∧ k3 = k
        · exact ⟨hcase2.1.trans hcase3.1.symm, hcase2.2.trans hcase3.2.symm⟩
        · rw [if_neg hcase3] at hj
          cases hi
          have := h.1 c3 k3 _ hj
          rw [h1] at this
          omega
      · rw [if_neg hcase2] at hi
        by_cases hcase3 : c3 = c ∧ k3 = k
        · rw [if_pos hcase3] at hj
          cases hj
          have := h.1 c2 k2 _ hi
          rw [h1] at this
          omega
        · rw [if_neg hcase3] at hj
          exact h.2 c2 k2 c3 k3 i hi hj

/-- C1: constructing or fetching the entity for a key twice within one session
returns the same in-memory instance and leaves the session unchanged on the
second call, and a call for any other (model class, key) pair returns a
different instance, so at most one instance exists per (class, key) and
reference equality coincides with key equality within a well-formed
session. -/
theorem idmap_identity (s : IdMapState) (hwf : IdMapWF s) (c c2 : Nat)
    (k k2 : List PyVal) (hne : ¬(c2 = c ∧ k2 = k)) :
    (idMapCall (idMapCall s c k).2 c k).1 = (idMapCall s c k).1 ∧
    (idMapCall (idMapCall s c k).2 c k).2 = (idMapCall s c k).2 ∧
    (idMapCall (idMapCall s c k).2 c2 k2).1 ≠ (idMapCall s c k).1 := by
  have hfind : imFind (idMapCall s c k).2 c k = some (idMapCall s c k).1 := by
    rw [imFind_idMapCall]
    simp
  have hrepeat := idMapCall_found hfind
  have hwf1 := idMapWF_call s hwf c k
  refine ⟨by rw [hrepeat], by rw [hrepeat], ?_⟩
  cases hf2 : imFind (idMapCall s c k).2 c2 k2 with
  | some j =>
    rw [idMapCall_found hf2]
    intro hij
    subst hij
    exact hne ⟨(hwf1.2 c2 k2 c k _ hf2 hfind).1, (hwf1.2 c2 k2 c k _ hf2 hfind).2⟩
  | none =>
    rw [(idMapCall_fresh hf2).1]
    have := hwf1.1 c k _ hfind
    omega

/-- Witness for C1 at the empty session: the blank state is well-formed, and
the identity and separation properties hold at concrete keys. -/
theorem idmap_identity_witness :
    (idMapCall (idMapCall ⟨0, []⟩ 0 [PyVal.int 1]).2 0 [PyVal.int 1]).1 =
      (idMapCall ⟨0, []⟩ 0 [PyVal.int 1]).1 ∧
    (idMapCall (idMapCall ⟨0, []⟩ 0 [PyVal.int 1]).2 0 [PyVal.int 1]).2 =
      (idMapCall ⟨0, []⟩ 0 [PyVal.int 1]).2 ∧
    (idMapCall (idMapCall ⟨0, []⟩ 0 [PyVal.int 1]).2 1 []).1 ≠
      (idMapCall ⟨0, []⟩ 0 [PyVal.int 1]).1 :=
  idmap_identity ⟨0, []⟩
    ⟨fun c k i h => by simp [imFind, alookup] at h,
     fun c k c2 k2 i h _ => by simp [imFind, alookup] at h⟩
    0 1 [PyVal.int 1] [] (by simp)

/-! Claim C2: the query result binder merges under local edits. -/

theorem mergePromote_cons (pk dk : List String) (e : MEnt) (nv : String × PyVal)
    (t : List (String × PyVal)) :
    mergePromote pk dk e (nv :: t) =
      mergePromote pk dk (if nv.1 ∈ pk ∨ nv.1 ∈ dk then e else promoteE e nv.1 nv.2) t := by
  simp only [mergePromote, List.foldl_cons]

theorem mergePromote_dirties (pk dk : List String) (L : List (String × PyVal)) :
    ∀ e : MEnt, (mergePromote pk dk e L).dirties = e.dirties := by
  induction L with
  | nil => intro e; rfl
  | cons nv t ih =>
    intro e
    rw [mergePromote_cons]
    by_cases h : nv.1 ∈ pk ∨ nv.1 ∈ dk
    · rw [if_pos h]
      exact ih e
    · rw [if_neg h]
      exact ih (promoteE e nv.1 nv.2)

theorem mergePromote_lookup_skip (pk dk : List String) (L : List (String × PyVal))
    (x : String) (hx : x ∈ pk ∨ x ∈ dk) :
    ∀ e : MEnt, alookup (mergePromote pk dk e L).values x = alookup e.values x := by
  induction L with
  | nil => intro e; rfl
  | cons nv t ih =>
    intro e
    rw [mergePromote_cons]
    by_cases h : nv.1 ∈ pk ∨ nv.1 ∈ dk
    · rw [if_pos h]
      exact ih e
    · rw [if_neg h]
      have hne : x ≠ nv.1 := fun heq => h (heq ▸ hx)
      rw [ih (promoteE e nv.1 nv.2)]
      exact alookup_upsert_ne _ _ _ _ hne

theorem mergePromote_lookup_absent (pk dk : List String) (L : List (String × PyVal))
    (x : String) (hx : x ∉ L.map Prod.fst) :
    ∀ e : MEnt, alookup (mergePromote pk dk e L).values x = alookup e.values x := by
  induction L with
  | nil => intro e; rfl
  | cons nv t ih =>
    intro e
    simp only [List.map_cons, List.mem_cons, not_or] at hx
    rw [mergePromote_cons]
    by_cases h : nv.1 ∈ pk ∨ nv.1 ∈ dk
    · rw [if_pos h]
      exact ih hx.2 e
    · rw [if_neg h]
      rw [ih hx.2 (promoteE e nv.1 nv.2)]
      exact alookup_upsert_ne _ _ _ _ hx.1

theorem mergePromote_lookup_mem (pk dk : List String) (L : List (String × PyVal))
    (x : String) (v : PyVal) (hnd : (L.map Prod.fst).Nodup)
    (hmem : (x, v) ∈ L) (hx : ¬(x ∈ pk ∨ x ∈ dk)) :
    ∀ e : MEnt, alookup (mergePromote pk dk e L).values x = some v := by
  induction L with
  | nil => simp at hmem
  | cons nv t ih =>
    intro e
    simp only [List.map_cons, List.nodup_cons] at hnd
    rw [mergePromote_cons]
    rcases List.mem_cons.1 hmem with hh | ht
    · have hx1 : nv.1 = x := by rw [← hh]
      rw [if_neg (by rw [hx1]; exact hx)]
      have habs : x ∉ t.map Prod.fst := by
        rw [← hx1]
        exact hnd.1
      rw [mergePromote_lookup_absent pk dk t x habs (promoteE e nv.1 nv.2)]
      have hv1 : nv.2 = v := by rw [← hh]
      simp only [promoteE, hx1, hv1]
      exact alookup_upsert_self _ _ _
    · exact ih hnd.2 ht _

theorem zip_keys_sublist {α β : Type} (l1 : List α) (l2 : List β) :
    ((l1.zip l2).map Prod.fst).Sublist l1 := by
  induction l1 generalizing l2 with
  | nil => simp
  | cons a t ih =>
    cases l2 with
    | nil => simp
    | cons b t2 =>
      simpa using List.Sublist.cons₂ a (ih t2)

theorem cleanedRow_keys_sublist (schema : List (String × MCol)) (R : List (String × PyVal)) :
    ((cleanedRow schema R).map Prod.fst).Sublist (R.map Prod.fst) := by
  induction R with
  | nil => simp [cleanedRow]
  | cons nv t ih =>
    by_cases hpk : nv.1 ∈ pkNames schema
    · simp only [cleanedRow, List.filterMap_cons, if_pos hpk, List.map_cons]
      exact List.Sublist.cons _ ih
    · cases hcol : alookup schema nv.1 with
      | none =>
        simp only [cleanedRow, List.filterMap_cons, if_neg hpk, hcol, List.map_cons]
        exact List.Sublist.cons _ ih
      | some col =>
        simp only [cleanedRow, List.filterMap_cons, if_neg hpk, hcol, List.map_cons]
        exact List.Sublist.cons₂ _ ih

theorem mem_cleanedRow {schema : List (String × MCol)} {R : List (String × PyVal)}
    {n : String} {col : MCol} {v : PyVal} (hc : alookup schema n = some col)
    (hpk : n ∉ pkNames schema) (hm : (n, v) ∈ R) :
    (n, cleanedValue col v) ∈ cleanedRow schema R := by
  unfold cleanedRow
  rw [List.mem_filterMap]
  exact ⟨(n, v), hm, by simp [hpk, hc]⟩

/-- C2: binding a fresh query result row for the key of an entity holding
uncommitted local edits leaves every dirty column untouched (the local edit
wins) and promotes, as clean data, every non-key result column known to the
schema that is not in the dirty set; the dirty set itself is unchanged. -/
theorem construct_dirty_overrides (schema : List (String × MCol))
    (sess : List (List PyVal × MEnt)) (names : List String) (vals : List PyVal)
    (key : List PyVal) (e : MEnt) (f : String)
    (hnd : names.Nodup)
    (hk : constructKey schema (names.zip vals) = Except.ok key)
    (he : alookup sess key = some e)
    (hf : f ∈ dirtyKeys e) :
    ∃ e2, constructInstance schema sess names vals = Except.ok (upsert sess key e2, e2) ∧
      e2.dirties = e.dirties ∧
      alookup e2.values f = alookup e.values f ∧
      ∀ n col v, alookup schema n = some col → n ∉ pkNames schema →
        alookup (names.zip vals) n = some v → n ∉ dirtyKeys e →
        alookup e2.values n = some (cleanedValue col v) := by
  refine ⟨mergePromote (pkNames schema) (dirtyKeys e) e (cleanedRow schema (names.zip vals)),
    ?_, ?_, ?_, ?_⟩
  · simp only [constructInstance, hk, he]
  · exact mergePromote_dirties _ _ _ e
  · exact mergePromote_lookup_skip _ _ _ f (Or.inr hf) e
  · intro n col v hcn hpk hv hdk
    have hclean := mem_cleanedRow hcn hpk (alookup_mem hv)
    have hrows : ((names.zip vals).map Prod.fst).Nodup :=
      List.Nodup.sublist (zip_keys_sublist names vals) hnd
    have hnd2 : ((cleanedRow schema (names.zip vals)).map Prod.fst).Nodup :=
      List.Nodup.sublist (cleanedRow_keys_sublist schema (names.zip vals)) hrows
    exact mergePromote_lookup_mem _ _ _ n (cleanedValue col v) hnd2 hclean
      (not_or.mpr ⟨hpk, hdk⟩) e

/-- Witness for C2: a session holding an entity for key 1 with a dirty title;
binding a result row with a different title keeps the local title and
promotes the clean text column. -/
theorem construct_dirty_overrides_witness :
    ∃ e2,
      constructInstance
        [("id", ⟨true, false, fun v => v, fun v => v⟩),
         ("title", ⟨false, false, fun v => v, fun v => v⟩),
         ("text", ⟨false, false, fun v => v, fun v => v⟩)]
        [([PyVal.int 1],
          ⟨[("id", PyVal.int 1), ("title", PyVal.str "local"), ("text", PyVal.str "old")],
           some [("title", PyVal.str "local")]⟩)]
        ["id", "title", "text"]
        [PyVal.int 1, PyVal.str "db", PyVal.str "newtext"] =
      Except.ok
        (upsert
          [([PyVal.int 1],
            ⟨[("id", PyVal.int 1), ("title", PyVal.str "local"), ("text", PyVal.str "old")],
             some [("title", PyVal.str "local")]⟩)]
          [PyVal.int 1] e2, e2) ∧
      e2.dirties = some [("title", PyVal.str "local")] ∧
      alookup e2.values "title" =
        alookup [("id", PyVal.int 1), ("title", PyVal.str "local"),
          ("text", PyVal.str "old")] "title" ∧
      ∀ n col v,
        alookup
          [("id", (⟨true, false, fun v => v, fun v => v⟩ : MCol)),
           ("title", ⟨false, false, fun v => v, fun v => v⟩),
           ("text", ⟨false, false, fun v => v, fun v => v⟩)] n = some col →
        n ∉ pkNames
          [("id", ⟨true, false, fun v => v, fun v => v⟩),
           ("title", ⟨false, false, fun v => v, fun v => v⟩),
           ("text", ⟨false, false, fun v => v, fun v => v⟩)] →
        alookup (["id", "title", "text"].zip
          [PyVal.int 1, PyVal.str "db", PyVal.str "newtext"]) n = some v →
        n ∉ dirtyKeys
          ⟨[("id", PyVal.int 1), ("title", PyVal.str "local"), ("text", PyVal.str "old")],
           some [("title", PyVal.str "local")]⟩ →
        alookup e2.values n = some (cleanedValue col v) := by
  have h := construct_dirty_overrides
    [("id", ⟨true, false, fun v => v, fun v => v⟩),
     ("title", ⟨false, false, fun v => v, fun v => v⟩),
     ("text", ⟨false, false, fun v => v, fun v => v⟩)]
    [([PyVal.int 1],
      ⟨[("id", PyVal.int 1), ("title", PyVal.str "local"), ("text", PyVal.str "old")],
       some [("title", PyVal.str "local")]⟩)]
    ["id", "title", "text"]
    [PyVal.int 1, PyVal.str "db", PyVal.str "newtext"]
    [PyVal.int 1]
    ⟨[("id", PyVal.int 1), ("title", PyVal.str "local"), ("text", PyVal.str "old")],
     some [("title", PyVal.str "local")]⟩
    "title" (by decide) (by rfl) (by rfl) (by simp [dirtyKeys])
  exact h

/-! Claim C7: dirty marking by the owned container methods. -/

theorem applyOwnedMethod_contents {α : Type} (b : Bool) (m : α → α) (s : Owned α) :
    (applyOwnedMethod b m s).contents = m s.contents := by
  cases b <;> rfl

theorem applyOwnedMethod_dirty {α : Type} (b : Bool) (m : α → α) (s : Owned α) :
    (applyOwnedMethod b m s).ownerDirty = (s.ownerDirty || b) := by
  cases b <;> simp [applyOwnedMethod, superMutate, markDirty]

theorem runOwnedMethods_contents {Op α : Type} (overr : Op → Bool) (sem : Op → α → α)
    (ops : List Op) :
    ∀ s : Owned α, (runOwnedMethods overr sem ops s).contents =
      ops.foldl (fun a op => sem op a) s.contents := by
  induction ops with
  | nil => intro s; rfl
  | cons op t ih =>
    intro s
    simp only [runOwnedMethods, List.foldl_cons] at *
    rw [ih (applyOwnedMethod (overr op) (sem op) s), applyOwnedMethod_contents]

theorem runOwnedMethods_dirty_overr {Op α : Type} (overr : Op → Bool) (sem : Op → α → α)
    (ops : List Op) (hne : ops ≠ []) (hall : ∀ op ∈ ops, overr op = true) :
    ∀ s : Owned α, (runOwnedMethods overr sem ops s).ownerDirty = true := by
  induction ops with
  | nil => exact absurd rfl hne
  | cons op t ih =>
    intro s
    by_cases ht : t = []
    · subst ht
      have hop := hall op (by simp)
      simp [runOwnedMethods, applyOwnedMethod_dirty, hop]
    · simp only [runOwnedMethods, List.foldl_cons]
      have h2 := ih ht (fun op2 hm => hall op2 (List.mem_cons_of_mem _ hm))
      simp only [runOwnedMethods] at h2
      exact h2 _

theorem runOwnedMethods_dirty_inherited {Op α : Type} (overr : Op → Bool)
    (sem : Op → α → α) (ops : List Op) (hall : ∀ op ∈ ops, overr op = false) :
    ∀ s : Owned α, (runOwnedMethods overr sem ops s).ownerDirty = s.ownerDirty := by
  induction ops with
  | nil => intro s; rfl
  | cons op t ih =>
    intro s
    simp only [runOwnedMethods, List.foldl_cons]
    have h2 := ih (fun op2 hm => hall op2 (List.mem_cons_of_mem _ hm))
    simp only [runOwnedMethods] at h2
    rw [h2, applyOwnedMethod_dirty, hall op (by simp)]
    simp

/-- C7 counterexample: deleting a key from a clean owned map goes through the
builtin dict delitem, which OwnedMap does not override: the contents change
but no dirty mark is recorded and the flush sees nothing for the column, so
it is not the case that every mutating operation records the container as the
owner dirty value before the mutation, nor that a flush always sees the
container final full value. -/
theorem owned_map_delitem_not_marked :
    runMapOps [MapOp.delitem "k"] ⟨[("k", 1)], false⟩ =
      ⟨[], false⟩ ∧
    flushValue (runMapOps [MapOp.delitem "k"] ⟨[("k", 1)], false⟩) = Option.none ∧
    (Option.none : Option (List (String × Int))) ≠ some [] := by
  refine ⟨rfl, rfl, by simp⟩

/-- C7 amended: every mutating method that OwnedSet, OwnedList and OwnedMap
define in their class bodies records the container itself as the owner dirty
value for the column name before performing the mutation, so after any
non-empty sequence of such calls a flush sees the container final full
contents (never a partial diff), and a call whose builtin part fails
(removing a missing set element) still leaves the dirty mark with the
contents unchanged; but the mutators inherited from the builtin types (dict
and list delitem, list delslice, iadd and imul, the set in-place operators)
mutate the contents without marking dirty, so a flush after only inherited
mutations sees nothing for the column. -/
theorem owned_dirty_marking_amended
    (sOps : List SetOp) (lOps : List ListOp) (mOps : List MapOp)
    (c0 l0 : List Int) (m0 : List (String × Int))
    (hsA : ∀ op ∈ sOps, op.overridden = true) (hsN : sOps ≠ [])
    (hlA : ∀ op ∈ lOps, op.overridden = true) (hlN : lOps ≠ [])
    (hmA : ∀ op ∈ mOps, op.overridden = true) (hmN : mOps ≠ [])
    (sIn : List SetOp) (hsI : ∀ op ∈ sIn, op.overridden = false)
    (lIn : List ListOp) (hlI : ∀ op ∈ lIn, op.overridden = false)
    (mIn : List MapOp) (hmI : ∀ op ∈ mIn, op.overridden = false)
    (x : Int) (s : Owned (List Int)) (hx : s.contents.contains x = false) :
    flushValue (runSetOps sOps ⟨c0, false⟩) =
      some (sOps.foldl (fun a op => op.contents a) c0) ∧
    flushValue (runListOps lOps ⟨l0, false⟩) =
      some (lOps.foldl (fun a op => op.contents a) l0) ∧
    flushValue (runMapOps mOps ⟨m0, false⟩) =
      some (mOps.foldl (fun a op => op.contents a) m0) ∧
    (runSetOps sIn ⟨c0, false⟩).ownerDirty = false ∧
    (runSetOps sIn ⟨c0, false⟩).contents = sIn.foldl (fun a op => op.contents a) c0 ∧
    flushValue (runSetOps sIn ⟨c0, false⟩) = Option.none ∧
    (runListOps lIn ⟨l0, false⟩).ownerDirty = false ∧
    (runListOps lIn ⟨l0, false⟩).contents = lIn.foldl (fun a op => op.contents a) l0 ∧
    flushValue (runListOps lIn ⟨l0, false⟩) = Option.none ∧
    (runMapOps mIn ⟨m0, false⟩).ownerDirty = false ∧
    (runMapOps mIn ⟨m0, false⟩).contents = mIn.foldl (fun a op => op.contents a) m0 ∧
    flushValue (runMapOps mIn ⟨m0, false⟩) = Option.none ∧
    setRemoveTry x s = (markDirty s, false) := by
  have hflush : ∀ {α : Type} (t : Owned α), t.ownerDirty = true →
      flushValue t = some t.contents := by
    intro α t ht
    simp [flushValue, ht]
  have hflushNo : ∀ {α : Type} (t : Owned α), t.ownerDirty = false →
      flushValue t = Option.none := by
    intro α t ht
    simp [flushValue, ht]
  unfold runSetOps runListOps runMapOps
  refine ⟨?_, ?_, ?_, ?_, ?_, ?_, ?_, ?_, ?_, ?_, ?_, ?_, ?_⟩
  · rw [hflush _ (runOwnedMethods_dirty_overr _ _ _ hsN hsA _),
      runOwnedMethods_contents]
  · rw [hflush _ (runOwnedMethods_dirty_overr _ _ _ hlN hlA _),
      runOwnedMethods_contents]
  · rw [hflush _ (runOwnedMethods_dirty_overr _ _ _ hmN hmA _),
      runOwnedMethods_contents]
  · exact runOwnedMethods_dirty_inherited _ _ _ hsI _
  · exact runOwnedMethods_contents _ _ _ _
  · exact hflushNo _ (runOwnedMethods_dirty_inherited _ _ _ hsI _)
  · exact runOwnedMethods_dirty_inherited _ _ _ hlI _
  · exact runOwnedMethods_contents _ _ _ _
  · exact hflushNo _ (runOwnedMethods_dirty_inherited _ _ _ hlI _)
  · exact runOwnedMethods_dirty_inherited _ _ _ hmI _
  · exact runOwnedMethods_contents _ _ _ _
  · exact hflushNo _ (runOwnedMethods_dirty_inherited _ _ _ hmI _)
  · have hx2 : x ∉ s.contents := by simpa using hx
    simp [setRemoveTry, markDirty, hx2]

/-- Witness for C7 amended: one overridden call per container marks dirty and
the flush reads the full contents; one inherited call per container mutates
silently; removing a missing element from an owned set marks dirty without
changing the contents. -/
theorem owned_dirty_marking_amended_witness :
    flushValue (runSetOps [SetOp.add 3] ⟨[], false⟩) =
      some ([SetOp.add 3].foldl (fun a op => op.contents a) []) ∧
    flushValue (runListOps [ListOp.append 4] ⟨[], false⟩) =
      some ([ListOp.append 4].foldl (fun a op => op.contents a) []) ∧
    flushValue (runMapOps [MapOp.setitem "a" 1] ⟨[], false⟩) =
      some ([MapOp.setitem "a" 1].foldl (fun a op => op.contents a) []) ∧
    (runSetOps [SetOp.ior [9]] ⟨[], false⟩).ownerDirty = false ∧
    (runSetOps [SetOp.ior [9]] ⟨[], false⟩).contents =
      [SetOp.ior [9]].foldl (fun a op => op.contents a) [] ∧
    flushValue (runSetOps [SetOp.ior [9]] ⟨[], false⟩) = Option.none ∧
    (runListOps [ListOp.delitem 0] ⟨[], false⟩).ownerDirty = false ∧
    (runListOps [ListOp.delitem 0] ⟨[], false⟩).contents =
      [ListOp.delitem 0].foldl (fun a op => op.contents a) [] ∧
    flushValue (runListOps [ListOp.delitem 0] ⟨[], false⟩) = Option.none ∧
    (runMapOps [MapOp.delitem "k"] ⟨[], false⟩).ownerDirty = false ∧
    (runMapOps [MapOp.delitem "k"] ⟨[], false⟩).contents =
      [MapOp.delitem "k"].foldl (fun a op => op.contents a) [] ∧
    flushValue (runMapOps [MapOp.delitem "k"] ⟨[], false⟩) = Option.none ∧
    setRemoveTry 5 ⟨[], false⟩ = (markDirty ⟨[], false⟩, false) :=
  owned_dirty_marking_amended [SetOp.add 3] [ListOp.append 4] [MapOp.setitem "a" 1]
    [] [] []
    (by decide) (by simp) (by decide) (by simp) (by decide) (by simp)
    [SetOp.ior [9]] (by decide)
    [ListOp.delitem 0] (by decide)
    [MapOp.delitem "k"] (by decide)
    5 ⟨[], false⟩ rfl

/-! Claim C8: counter reads. -/

/-- C8 counterexample: reading a counter that was never loaded or set does not
return 0; it raises AttributeUnavailable, both when the column is missing from
the value store and when the value store itself is absent (a blind handle). -/
theorem counter_get_blind_raises :
    counterGet (some [("other", PyVal.int 1)]) "count" =
      Except.error PyError.attributeUnavailable ∧
    counterGet Option.none "count" = Except.error PyError.attributeUnavailable ∧
    counterGet Option.none "count" ≠ Except.ok 0 := by
  refine ⟨rfl, rfl, ?_⟩
  intro h
  simp [counterGet] at h

/-- C8 amended: reading a counter returns its current accumulated value, with
a stored Python None (or any falsy value) read as 0; reading a counter column
that was never loaded or set raises AttributeUnavailable instead of returning
0. -/
theorem counter_get_amended (vs : List (String × PyVal)) (name : String) :
    (∀ v, alookup vs name = some v →
      (v = PyVal.none → counterGet (some vs) name = Except.ok 0) ∧
      (∀ n, v = PyVal.int n → counterGet (some vs) name = Except.ok n)) ∧
    (alookup vs name = Option.none →
      counterGet (some vs) name = Except.error PyError.attributeUnavailable) ∧
    counterGet Option.none name = Except.error PyError.attributeUnavailable := by
  refine ⟨?_, ?_, rfl⟩
  · intro v hv
    constructor
    · intro hnone
      subst hnone
      simp [counterGet, hv, PyVal.truthy]
    · intro n hn
      subst hn
      by_cases hz : n = 0
      · subst hz
        simp [counterGet, hv, PyVal.truthy]
      · simp [counterGet, hv, PyVal.truthy, hz]
  · intro hv
    simp [counterGet, hv]

/-- Witness for C8 amended at concrete stores: a loaded value reads back, a
stored None reads as 0, and a missing column raises. -/
theorem counter_get_amended_witness :
    counterGet (some [("count", PyVal.int 5)]) "count" = Except.ok 5 ∧
    counterGet (some [("z", PyVal.none)]) "z" = Except.ok 0 ∧
    counterGet (some []) "count" = Except.error PyError.attributeUnavailable :=
  ⟨((counter_get_amended [("count", PyVal.int 5)] "count").1 (PyVal.int 5) rfl).2 5 rfl,
   ((counter_get_amended [("z", PyVal.none)] "z").1 PyVal.none rfl).1 rfl,
   (counter_get_amended [] "count").2.1 rfl⟩

/-! Claim C9: falsy declared defaults in create. -/

/-- C9 counterexample: a counter column with the falsy declared default 0 is
not given Python None by create when missing from the keywords; the counter
branch yields 0, so the claim clause about non-key fields receiving None fails
on counter columns. -/
theorem create_falsy_default_counter_case :
    createResolve ⟨true, false, some (ColDefault.value (PyVal.int 0))⟩ Option.none =
      Except.ok (PyVal.int 0) ∧
    createResolve ⟨true, false, some (ColDefault.value (PyVal.int 0))⟩ Option.none ≠
      Except.ok PyVal.none := by
  refine ⟨rfl, ?_⟩
  intro h
  simp [createResolve, createFallback, PyVal.truthy] at h

/-- C9 amended: only the truthiness of a declared default is tested, so a
falsy default (0, False, empty string) behaves exactly as if no default were
declared: a missing primary key field raises the missing-key ValueError
(unless the column is a counter), a missing counter column receives 0, and any
other missing non-key field receives Python None (container columns then wrap
that None into an empty owned container). -/
theorem create_falsy_default (col : CreateCol) (v : PyVal)
    (hd : col.default = some (ColDefault.value v)) (hv : v.truthy = false) :
    createResolve col Option.none = createResolve { col with default := Option.none } Option.none ∧
    (col.isCounter = true → createResolve col Option.none = Except.ok (PyVal.int 0)) ∧
    (col.isCounter = false → col.primaryKey = true →
      createResolve col Option.none = Except.error PyError.valueError) ∧
    (col.isCounter = false → col.primaryKey = false →
      createResolve col Option.none = Except.ok PyVal.none) := by
  refine ⟨?_, ?_, ?_, ?_⟩
  · simp only [createResolve, hd, hv]
    rfl
  · intro hc
    simp [createResolve, hd, hv, createFallback, hc]
  · intro hc hp
    simp [createResolve, hd, hv, createFallback, hc, hp]
  · intro hc hp
    simp [createResolve, hd, hv, createFallback, hc, hp]

/-- Witness for C9 amended: an empty-string default on a primary key raises
the missing-key error, and a False default on a plain column yields None. -/
theorem create_falsy_default_witness :
    createResolve ⟨false, true, some (ColDefault.value (PyVal.str ""))⟩ Option.none =
      Except.error PyError.valueError ∧
    createResolve ⟨false, false, some (ColDefault.value (PyVal.boolean false))⟩ Option.none =
      Except.ok PyVal.none :=
  ⟨(create_falsy_default ⟨false, true, some (ColDefault.value (PyVal.str ""))⟩
      (PyVal.str "") rfl rfl).2.2.1 rfl rfl,
   (create_falsy_default ⟨false, false, some (ColDefault.value (PyVal.boolean false))⟩
      (PyVal.boolean false) rfl rfl).2.2.2 rfl rfl⟩

/-! Claim C10: attribute deletion. -/

/-- C10: deleting a column attribute on an entity instance always raises,
NotImplementedError when the column reports can_delete and AttributeError
otherwise, and the clean values and the dirty set of the entity are left
unchanged in both cases. -/
theorem column_delete_raises (cd : Bool) (e : MEnt) :
    (columnDelete cd e).1 = e ∧
    (columnDelete cd e).2 =
      some (if cd then PyError.notImplementedError else PyError.attributeError) :=
  ⟨rfl, rfl⟩

/-! Claim C3: partial save scope. -/

/-- C3: evaluation of Session.save at the failing input for the partial save
claim: the session holds a loaded dirty entity (id 0) and a newly created
entity (id 1), and save is called with the subset consisting of the created
entity only.  Because the source computes the bucket restriction with the
Python boolean operator (updates and objects), the non-empty updates bucket is
replaced wholesale by the objects tuple, the created entity is processed by
the updates loop as well, and reading its absent _dirties raises
AttributeError, aborting the flush instead of committing the pending create of
the subset and leaving the rest for later. -/
theorem save_subset_misfiled :
    saveRun
      [⟨0, false, false, some [("text", PyVal.str "changed1")]⟩,
       ⟨1, false, true, Option.none⟩]
      [0, 1] [1] = Except.error PyError.attributeError := by
  rfl

/-! Claim C4: counter increments accumulate deltas. -/

theorem counterIncrAll_cons (inst : CtrInst) (name : String) (d : Int) (t : List Int) :
    counterIncrAll inst name (d :: t) =
      match counterIncr inst name d with
      | Except.ok inst2 => counterIncrAll inst2 name t
      | Except.error e => Except.error e := by
  simp only [counterIncrAll, List.foldlM_cons]
  cases counterIncr inst name d <;> rfl

theorem counterIncrAll_accum (name : String) (l : List Int) :
    ∀ (vs ds0 : List (String × PyVal)) (c a : Int),
      alookup vs name = some (PyVal.int c) →
      alookup ds0 name = some (PyVal.int a) →
      ∃ vs2 ds2,
        counterIncrAll ⟨some vs, some ds0⟩ name l = Except.ok ⟨some vs2, some ds2⟩ ∧
        alookup vs2 name = some (PyVal.int (c + l.sum)) ∧
        alookup ds2 name = some (PyVal.int (a + l.sum)) := by
  induction l with
  | nil =>
    intro vs ds0 c a hv ha
    exact ⟨vs, ds0, rfl, by simpa using hv, by simpa using ha⟩
  | cons d t ih =>
    intro vs ds0 c a hv ha
    have hstep : counterIncr ⟨some vs, some ds0⟩ name d =
        Except.ok ⟨some (upsert vs name (PyVal.int (c + d))),
          some (upsert ds0 name (PyVal.int (a + d)))⟩ := by
      simp [counterIncr, hv, ha]
    obtain ⟨vs2, ds2, h1, h2, h3⟩ := ih (upsert vs name (PyVal.int (c + d)))
      (upsert ds0 name (PyVal.int (a + d))) (c + d) (a + d)
      (alookup_upsert_self _ _ _) (alookup_upsert_self _ _ _)
    refine ⟨vs2, ds2, ?_, ?_, ?_⟩
    · rw [counterIncrAll_cons, hstep]
      exact h1
    · rw [List.sum_cons, ← add_assoc]
      exact h2
    · rw [List.sum_cons, ← add_assoc]
      exact h3

/-- C4: on an entity whose counter column holds the integer clean value c and
has no pending dirty delta, every increment by a signed delta adds the delta
to both the clean value and the dirty delta accumulator (created on the first
increment), so n successive increments by d1..dn without an intervening flush
leave the clean value at c plus the sum and a single pending delta equal to
the sum; the flush then hands exactly that delta to the storage counter update
clause, whose additive semantics makes the stored value the prior value plus
the sum. -/
theorem counter_increment_accumulates (vs : List (String × PyVal)) (name : String)
    (c : Int) (ds : List Int) (prior : Int)
    (hv : alookup vs name = some (PyVal.int c)) (hds : ds ≠ []) :
    ∃ vs2 acc,
      counterIncrAll ⟨some vs, Option.none⟩ name ds = Except.ok ⟨some vs2, some acc⟩ ∧
      alookup vs2 name = some (PyVal.int (c + ds.sum)) ∧
      alookup acc name = some (PyVal.int ds.sum) ∧
      applyCounterDelta prior ds.sum = prior + ds.sum := by
  cases ds with
  | nil => exact absurd rfl hds
  | cons d t =>
    have hstep : counterIncr ⟨some vs, Option.none⟩ name d =
        Except.ok ⟨some (upsert vs name (PyVal.int (c + d))), some [(name, PyVal.int d)]⟩ := by
      simp [counterIncr, hv]
    obtain ⟨vs2, ds2, h1, h2, h3⟩ := counterIncrAll_accum name t
      (upsert vs name (PyVal.int (c + d))) [(name, PyVal.int d)] (c + d) d
      (alookup_upsert_self _ _ _) (by simp [alookup])
    refine ⟨vs2, ds2, ?_, ?_, ?_, rfl⟩
    · rw [counterIncrAll_cons, hstep]
      exact h1
    · rw [List.sum_cons, ← add_assoc]
      exact h2
    · rw [List.sum_cons]
      exact h3

/-- Witness for C4: a counter at 7 incremented by +5 then +3 reads 15 and
carries the single pending delta 8, which the flush applies to a prior stored
value of 100 giving 108. -/
theorem counter_increment_accumulates_witness :
    ∃ vs2 acc,
      counterIncrAll ⟨some [("count", PyVal.int 7)], Option.none⟩ "count" [5, 3] =
        Except.ok ⟨some vs2, some acc⟩ ∧
      alookup vs2 "count" = some (PyVal.int (7 + ([5, 3] : List Int).sum)) ∧
      alookup acc "count" = some (PyVal.int (([5, 3] : List Int).sum)) ∧
      applyCounterDelta 100 (([5, 3] : List Int).sum) = 100 + ([5, 3] : List Int).sum :=
  counter_increment_accumulates [("count", PyVal.int 7)] "count" 7 [5, 3] 100 rfl (by simp)

/-! Claim C6: deferred callbacks. -/

theorem cbMeasure_append (a b : List (Nat × List Nat)) :
    cbMeasure (a ++ b) = cbMeasure a + cbMeasure b := by
  induction a with
  | nil => simp [cbMeasure]
  | cons x t ih => simp [cbMeasure, ih]; omega

theorem cbMeasure_spawned (l : List Nat) :
    cbMeasure (l.map (fun s => (s, ([] : List Nat)))) = l.length := by
  induction l with
  | nil => simp [cbMeasure]
  | cons x t ih => simp [cbMeasure, ih]; omega

theorem spawned_bind (l : List Nat) :
    (l.map (fun s => (s, ([] : List Nat)))).flatMap (fun e => e.2) = [] := by
  induction l with
  | nil => rfl
  | cons x t ih => simp [ih]

theorem runCb_formula_aux (n : Nat) :
    ∀ q : List (Nat × List Nat), cbMeasure q ≤ n →
      runCb q = q.map Prod.fst ++ q.flatMap (fun e => e.2) := by
  induction n with
  | zero =>
    intro q hq
    cases q with
    | nil => simp [runCb]
    | cons e t =>
      simp [cbMeasure] at hq
  | succ n ih =>
    intro q hq
    cases q with
    | nil => simp [runCb]
    | cons e rest =>
      have hm : cbMeasure (rest ++ e.2.map (fun s => (s, ([] : List Nat)))) ≤ n := by
        rw [cbMeasure_append, cbMeasure_spawned]
        simp only [cbMeasure] at hq
        omega
      rw [runCb, ih _ hm]
      simp [List.map_append, List.map_map, spawned_bind, Function.comp_def]

/-- C6 amended: after all writes of a flush succeed, the callback loop runs
over the live queue: every callback registered before the flush is invoked in
registration order with its captured positional and keyword arguments (an
entry stands for that captured triple), followed within the same flush by
every callback those callbacks register while running, since a Python for
loop visits elements appended during the iteration; afterwards the queue is
reset to empty, so nothing carries over to the next flush. -/
theorem callbacks_live_iteration (q : List (Nat × List Nat)) :
    runCb q = q.map Prod.fst ++ q.flatMap (fun e => e.2) ∧
    (flushCallbacks q).2 = [] :=
  ⟨runCb_formula_aux (cbMeasure q) q le_rfl, rfl⟩

/-- C6 counterexample: a callback (entry 1) that registers another callback
(entry 2) from within its own invocation: the flush invokes entry 2 in the
same flush right after entry 1 and then clears the queue, whereas the claim
states entry 2 is not invoked by that flush and is invoked by the next one. -/
theorem callback_registered_during_flush_same_flush :
    (flushCallbacks [(1, [2])]).1 = [1, 2] ∧
    (flushCallbacks [(1, [2])]).1 ≠ [1] ∧
    (flushCallbacks [(1, [2])]).2 = [] := by
  have h1 : (flushCallbacks [(1, [2])]).1 = [1, 2] := by
    simp [flushCallbacks, runCb]
  refine ⟨h1, ?_, rfl⟩
  rw [h1]
  simp

/-! Claim C5: marker clearing around the flush writes. -/

theorem findEnt_setEnt (st : List SEnt) (i j : Nat) (f : SEnt → SEnt)
    (hf : ∀ e, (f e).id = e.id) :
    findEnt (setEnt st i f) j = if j = i then (findEnt st i).map f else findEnt st j := by
  induction st with
  | nil => simp [setEnt, findEnt]
  | cons e t ih =>
    simp only [setEnt]
    by_cases he : e.id = i
    · by_cases hj : j = i
      · subst hj
        simp [findEnt, he, hf]
      · have h1 : (f e).id ≠ j := by rw [hf e, he]; exact fun hh => hj hh.symm
        have h2 : e.id ≠ j := by rw [he]; exact fun hh => hj hh.symm
        have h3 : ¬i = j := fun hh => hj hh.symm
        simp [findEnt, he, h1, h2, hj, h3, ih]
    · by_cases hj : j = i
      · subst hj
        simp [findEnt, he, ih]
      · simp [findEnt, he, hj, ih]

theorem setEnt_pres_cleared (st : List SEnt) (i j : Nat) (f : SEnt → SEnt)
    (hfid : ∀ e, (f e).id = e.id) (hfd : ∀ e, (f e).dirties = Option.none)
    (hfc : ∀ e, e.created = false → (f e).created = false)
    (h : ∃ e, findEnt st j = some e ∧ e.created = false ∧ e.dirties = Option.none) :
    ∃ e, findEnt (setEnt st i f) j = some e ∧ e.created = false ∧
      e.dirties = Option.none := by
  obtain ⟨e, h1, h2, h3⟩ := h
  rw [findEnt_setEnt st i j f hfid]
  by_cases hji : j = i
  · rw [if_pos hji]
    rw [hji] at h1
    rw [h1]
    exact ⟨f e, rfl, hfc e h2, hfd e⟩
  · rw [if_neg hji]
    exact ⟨e, h1, h2, h3⟩

theorem setEnt_pres_dirtiesNone (st : List SEnt) (i j : Nat) (f : SEnt → SEnt)
    (hfid : ∀ e, (f e).id = e.id) (hfd : ∀ e, (f e).dirties = Option.none)
    (h : ∃ e, findEnt st j = some e ∧ e.dirties = Option.none) :
    ∃ e, findEnt (setEnt st i f) j = some e ∧ e.dirties = Option.none := by
  obtain ⟨e, h1, h2⟩ := h
  rw [findEnt_setEnt st i j f hfid]
  by_cases hji : j = i
  · rw [if_pos hji]
    rw [hji] at h1
    rw [h1]
    exact ⟨f e, rfl, hfd e⟩
  · rw [if_neg hji]
    exact ⟨e, h1, h2⟩

theorem setEnt_back_some (st : List SEnt) (i j : Nat) (f : SEnt → SEnt)
    (hfid : ∀ e, (f e).id = e.id) (hfd : ∀ e, (f e).dirties = Option.none)
    (h : ∃ e, findEnt (setEnt st i f) j = some e ∧ e.dirties.isSome = true) :
    ∃ e, findEnt st j = some e ∧ e.dirties.isSome = true := by
  obtain ⟨e, h1, h2⟩ := h
  rw [findEnt_setEnt st i j f hfid] at h1
  by_cases hji : j = i
  · rw [if_pos hji] at h1
    subst hji
    cases hfi : findEnt st j with
    | none => rw [hfi] at h1; simp at h1
    | some e0 =>
      rw [hfi] at h1
      simp only [Option.map_some', Option.some.injEq] at h1
      rw [← h1, hfd e0] at h2
      simp at h2
  · rw [if_neg hji] at h1
    exact ⟨e, h1, h2⟩

theorem createsPhase_nil_ok {st fin : List SEnt} {ev : List SaveEvent}
    (h : createsPhase [] st = Except.ok (ev, fin)) : fin = st := by
  simp only [createsPhase, Except.ok.injEq, Prod.mk.injEq] at h
  exact h.2.symm

theorem createsPhase_cons_ok {i : Nat} {t : List Nat} {st fin : List SEnt}
    {ev : List SaveEvent} (h : createsPhase (i :: t) st = Except.ok (ev, fin)) :
    ∃ e evs, findEnt st i = some e ∧ e.created = true ∧
      createsPhase t (setEnt st i clearCreatedDirties) = Except.ok (evs, fin) ∧
      ev = SaveEvent.batchInsert i :: evs := by
  simp only [createsPhase] at h
  split at h
  next => simp at h
  next e heq =>
    split at h
    next hc =>
      split at h
      next evs fin2 hrec =>
        simp only [Except.ok.injEq, Prod.mk.injEq] at h
        exact ⟨e, evs, heq, hc, by rw [hrec, h.2], h.1.symm⟩
      next err hrec => simp at h
    next hc => simp at h

theorem updatesPhase_nil_ok {st fin : List SEnt} {ev : List SaveEvent}
    (h : updatesPhase [] st = Except.ok (ev, fin)) : fin = st := by
  simp only [updatesPhase, Except.ok.injEq, Prod.mk.injEq] at h
  exact h.2.symm

theorem updatesPhase_cons_ok {i : Nat} {t : List Nat} {st fin : List SEnt}
    {ev : List SaveEvent} (h : updatesPhase (i :: t) st = Except.ok (ev, fin)) :
    ∃ e ds evs, findEnt st i = some e ∧ e.dirties = some ds ∧
      updatesPhase t (setEnt st i clearDirtiesE) = Except.ok (evs, fin) ∧
      ev = SaveEvent.batchUpdate i ds :: evs := by
  simp only [updatesPhase] at h
  split at h
  next => simp at h
  next e heq =>
    split at h
    next hds => simp at h
    next ds hds =>
      split at h
      next evs fin2 hrec =>
        simp only [Except.ok.injEq, Prod.mk.injEq] at h
        exact ⟨e, ds, evs, heq, hds, by rw [hrec, h.2], h.1.symm⟩
      next err hrec => simp at h

theorem counterCreatesPhase_nil_ok {st fin : List SEnt} {ev : List SaveEvent}
    (h : counterCreatesPhase [] st = Except.ok (ev, fin)) : fin = st := by
  simp only [counterCreatesPhase, Except.ok.injEq, Prod.mk.injEq] at h
  exact h.2.symm

theorem counterCreatesPhase_cons_ok {i : Nat} {t : List Nat} {st fin : List SEnt}
    {ev : List SaveEvent} (h : counterCreatesPhase (i :: t) st = Except.ok (ev, fin)) :
    ∃ e evs, findEnt st i = some e ∧ e.created = true ∧
      counterCreatesPhase t (setEnt st i clearCreatedDirties) = Except.ok (evs, fin) ∧
      ev = SaveEvent.execInsert i :: SaveEvent.execCounterWrite i :: evs := by
  simp only [counterCreatesPhase] at h
  split at h
  next => simp at h
  next e heq =>
    split at h
    next hc =>
      split at h
      next evs fin2 hrec =>
        simp only [Except.ok.injEq, Prod.mk.injEq] at h
        exact ⟨e, evs, heq, hc, by rw [hrec, h.2], h.1.symm⟩
      next err hrec => simp at h
    next hc => simp at h

theorem counterUpdatesPhase_nil_ok {st fin : List SEnt} {ev : List SaveEvent}
    (h : counterUpdatesPhase [] st = Except.ok (ev, fin)) : fin = st := by
  simp only [counterUpdatesPhase, Except.ok.injEq, Prod.mk.injEq] at h
  exact h.2.symm

theorem counterUpdatesPhase_cons_ok {i : Nat} {t : List Nat} {st fin : List SEnt}
    {ev : List SaveEvent} (h : counterUpdatesPhase (i :: t) st = Except.ok (ev, fin)) :
    ∃ e ds evs, findEnt st i = some e ∧ e.dirties = some ds ∧
      counterUpdatesPhase t (setEnt st i clearDirtiesE) = Except.ok (evs, fin) ∧
      ev = SaveEvent.execCounterUpdate i ds :: evs := by
  simp only [counterUpdatesPhase] at h
  split at h
  next => simp at h
  next e heq =>
    split at h
    next hds => simp at h
    next ds hds =>
      split at h
      next evs fin2 hrec =>
        simp only [Except.ok.injEq, Prod.mk.injEq] at h
        exact ⟨e, ds, evs, heq, hds, by rw [hrec, h.2], h.1.symm⟩
      next err hrec => simp at h

theorem createsPhase_mem_cleared (l : List Nat) :
    ∀ (st fin : List SEnt) (ev : List SaveEvent),
      createsPhase l st = Except.ok (ev, fin) →
      ∀ j ∈ l, ∃ e, findEnt fin j = some e ∧ e.created = false ∧
        e.dirties = Option.none := by
  have pres : ∀ (l2 : List Nat) (st fin : List SEnt) (ev : List SaveEvent) (j : Nat),
      createsPhase l2 st = Except.ok (ev, fin) →
      (∃ e, findEnt st j = some e ∧ e.created = false ∧ e.dirties = Option.none) →
      ∃ e, findEnt fin j = some e ∧ e.created = false ∧ e.dirties = Option.none := by
    intro l2
    induction l2 with
    | nil =>
      intro st fin ev j h hp
      rw [createsPhase_nil_ok h]
      exact hp
    | cons i t ih =>
      intro st fin ev j h hp
      obtain ⟨e, evs, hfi, hc, hrec, hev⟩ := createsPhase_cons_ok h
      exact ih _ _ _ j hrec
        (setEnt_pres_cleared st i j clearCreatedDirties (fun _ => rfl) (fun _ => rfl)
          (fun _ _ => rfl) hp)
  induction l with
  | nil =>
    intro st fin ev h j hj
    simp at hj
  | cons i t ih =>
    intro st fin ev h j hj
    obtain ⟨e, evs, hfi, hc, hrec, hev⟩ := createsPhase_cons_ok h
    rcases List.mem_cons.1 hj with rfl | hjt
    · refine pres t _ _ _ j hrec ?_
      rw [findEnt_setEnt st j j clearCreatedDirties (fun _ => rfl), if_pos rfl, hfi]
      exact ⟨clearCreatedDirties e, rfl, rfl, rfl⟩
    · exact ih _ _ _ hrec j hjt

theorem updatesPhase_pres_cleared (l : List Nat) :
    ∀ (st fin : List SEnt) (ev : List SaveEvent) (j : Nat),
      updatesPhase l st = Except.ok (ev, fin) →
      (∃ e, findEnt st j = some e ∧ e.created = false ∧ e.dirties = Option.none) →
      ∃ e, findEnt fin j = some e ∧ e.created = false ∧ e.dirties = Option.none := by
  induction l with
  | nil =>
    intro st fin ev j h hp
    rw [updatesPhase_nil_ok h]
    exact hp
  | cons i t ih =>
    intro st fin ev j h hp
    obtain ⟨e, ds, evs, hfi, hds, hrec, hev⟩ := updatesPhase_cons_ok h
    exact ih _ _ _ j hrec
      (setEnt_pres_cleared st i j clearDirtiesE (fun _ => rfl) (fun _ => rfl)
        (fun _ hh => hh) hp)

theorem updatesPhase_mem_dirtiesNone (l : List Nat) :
    ∀ (st fin : List SEnt) (ev : List SaveEvent),
      updatesPhase l st = Except.ok (ev, fin) →
      ∀ j ∈ l, ∃ e, findEnt fin j = some e ∧ e.dirties = Option.none := by
  have pres : ∀ (l2 : List Nat) (st fin : List SEnt) (ev : List SaveEvent) (j : Nat),
      updatesPhase l2 st = Except.ok (ev, fin) →
      (∃ e, findEnt st j = some e ∧ e.dirties = Option.none) →
      ∃ e, findEnt fin j = some e ∧ e.dirties = Option.none := by
    intro l2
    induction l2 with
    | nil =>
      intro st fin ev j h hp
      rw [updatesPhase_nil_ok h]
      exact hp
    | cons i t ih =>
      intro st fin ev j h hp
      obtain ⟨e, ds, evs, hfi, hds, hrec, hev⟩ := updatesPhase_cons_ok h
      exact ih _ _ _ j hrec
        (setEnt_pres_dirtiesNone st i j clearDirtiesE (fun _ => rfl) (fun _ => rfl) hp)
  induction l with
  | nil =>
    intro st fin ev h j hj
    simp at hj
  | cons i t ih =>
    intro st fin ev h j hj
    obtain ⟨e, ds, evs, hfi, hds, hrec, hev⟩ := updatesPhase_cons_ok h
    rcases List.mem_cons.1 hj with rfl | hjt
    · refine pres t _ _ _ j hrec ?_
      rw [findEnt_setEnt st j j clearDirtiesE (fun _ => rfl), if_pos rfl, hfi]
      exact ⟨clearDirtiesE e, rfl, rfl⟩
    · exact ih _ _ _ hrec j hjt

theorem counterCreatesPhase_back_some (l : List Nat) :
    ∀ (st fin : List SEnt) (ev : List SaveEvent) (j : Nat),
      counterCreatesPhase l st = Except.ok (ev, fin) →
      (∃ e, findEnt fin j = some e ∧ e.dirties.isSome = true) →
      ∃ e, findEnt st j = some e ∧ e.dirties.isSome = true := by
  induction l with
  | nil =>
    intro st fin ev j h hp
    rw [counterCreatesPhase_nil_ok h] at hp
    exact hp
  | cons i t ih =>
    intro st fin ev j h hp
    obtain ⟨e, evs, hfi, hc, hrec, hev⟩ := counterCreatesPhase_cons_ok h
    exact setEnt_back_some st i j clearCreatedDirties (fun _ => rfl) (fun _ => rfl)
      (ih _ _ _ j hrec hp)

theorem counterUpdatesPhase_mem_requires (l : List Nat) :
    ∀ (st fin : List SEnt) (ev : List SaveEvent),
      counterUpdatesPhase l st = Except.ok (ev, fin) →
      ∀ j ∈ l, ∃ e, findEnt st j = some e ∧ e.dirties.isSome = true := by
  induction l with
  | nil =>
    intro st fin ev h j hj
    simp at hj
  | cons i t ih =>
    intro st fin ev h j hj
    obtain ⟨e, ds, evs, hfi, hds, hrec, hev⟩ := counterUpdatesPhase_cons_ok h
    rcases List.mem_cons.1 hj with rfl | hjt
    · exact ⟨e, hfi, by rw [hds]; rfl⟩
    · exact setEnt_back_some st i j clearDirtiesE (fun _ => rfl) (fun _ => rfl)
        (ih _ _ _ hrec j hjt)

theorem counterUpdatesPhase_mem_dirtiesNone (l : List Nat) :
    ∀ (st fin : List SEnt) (ev : List SaveEvent),
      counterUpdatesPhase l st = Except.ok (ev, fin) →
      ∀ j ∈ l, ∃ e, findEnt fin j = some e ∧ e.dirties = Option.none := by
  have pres : ∀ (l2 : List Nat) (st fin : List SEnt) (ev : List SaveEvent) (j : Nat),
      counterUpdatesPhase l2 st = Except.ok (ev, fin) →
      (∃ e, findEnt st j = some e ∧ e.dirties = Option.none) →
      ∃ e, findEnt fin j = some e ∧ e.dirties = Option.none := by
    intro l2
    induction l2 with
    | nil =>
      intro st fin ev j h hp
      rw [counterUpdatesPhase_nil_ok h]
      exact hp
    | cons i t ih =>
      intro st fin ev j h hp
      obtain ⟨e, ds, evs, hfi, hds, hrec, hev⟩ := counterUpdatesPhase_cons_ok h
      exact ih _ _ _ j hrec
        (setEnt_pres_dirtiesNone st i j clearDirtiesE (fun _ => rfl) (fun _ => rfl) hp)
  induction l with
  | nil =>
    intro st fin ev h j hj
    simp at hj
  | cons i t ih =>
    intro st fin ev h j hj
    obtain ⟨e, ds, evs, hfi, hds, hrec, hev⟩ := counterUpdatesPhase_cons_ok h
    rcases List.mem_cons.1 hj with rfl | hjt
    · refine pres t _ _ _ j hrec ?_
      rw [findEnt_setEnt st j j clearDirtiesE (fun _ => rfl), if_pos rfl, hfi]
      exact ⟨clearDirtiesE e, rfl, rfl⟩
    · exact ih _ _ _ hrec j hjt

/-- C5 amended: marker clearing is not tied to the success of the
corresponding writes for the batched operations.  In any successful run of
Session.save, at the moment the batch context exits (which is when the batched
inserts and updates actually execute, and hence the point where a batch
failure would surface), every entity of the creates bucket has already lost
its created flag and dirty set and every entity of the updates bucket has
already lost its dirty set, so a flush that fails at batch execution leaves no
markers to retry; counter update entities, by contrast, still hold their dirty
set at that moment and have it cleared only in the later counter loop, after
their individual statement executes. -/
theorem save_marker_clearing (heap : List SEnt) (sess objs : List Nat)
    (tr : List SaveEvent) (fin : List SEnt)
    (h : saveRun heap sess objs = Except.ok (tr, fin)) :
    ∃ st2, batchState heap sess objs = Except.ok st2 ∧
      (∀ i ∈ (saveBuckets heap sess objs).creates,
        ∃ e, findEnt st2 i = some e ∧ e.created = false ∧ e.dirties = Option.none) ∧
      (∀ i ∈ (saveBuckets heap sess objs).updates,
        ∃ e, findEnt st2 i = some e ∧ e.dirties = Option.none) ∧
      (∀ i ∈ (saveBuckets heap sess objs).counterUpdates,
        (∃ e, findEnt st2 i = some e ∧ e.dirties.isSome = true) ∧
        (∃ e, findEnt fin i = some e ∧ e.dirties = Option.none)) := by
  simp only [saveRun] at h
  split at h
  next e hC => simp at h
  next evC st1 hC =>
    split at h
    next e hU => simp at h
    next evU st2 hU =>
      split at h
      next e hCC => simp at h
      next evCC st3 hCC =>
        split at h
        next e hCU => simp at h
        next evCU st4 hCU =>
          simp only [Except.ok.injEq, Prod.mk.injEq] at h
          refine ⟨st2, ?_, ?_, ?_, ?_⟩
          · simp only [batchState, hC, hU]
          · intro i hi
            exact updatesPhase_pres_cleared _ _ _ _ i hU
              (createsPhase_mem_cleared _ _ _ _ hC i hi)
          · intro i hi
            exact updatesPhase_mem_dirtiesNone _ _ _ _ hU i hi
          · intro i hi
            constructor
            · exact counterCreatesPhase_back_some _ _ _ _ i hCC
                (counterUpdatesPhase_mem_requires _ _ _ _ hCU i hi)
            · rw [← h.2]
              exact counterUpdatesPhase_mem_dirtiesNone _ _ _ _ hCU i hi

/-- C5 counterexample: a session holding one freshly created entity (id 0):
at the moment the batch executes, the only write for that entity, its created
flag and dirty set are already gone, so after a flush failing at batch
execution the entity does not still carry its markers, contradicting the
claim that markers are cleared only on success of the corresponding write. -/
theorem save_failed_batch_loses_markers :
    batchState [⟨0, false, true, Option.none⟩] [0] [] =
      Except.ok [⟨0, false, false, Option.none⟩] ∧
    ¬ (∃ e, findEnt [(⟨0, false, false, Option.none⟩ : SEnt)] 0 = some e ∧
        (e.created = true ∨ e.dirties ≠ Option.none)) := by
  constructor
  · rfl
  · rintro ⟨e, he, hor⟩
    simp only [findEnt, if_pos rfl] at he
    cases he
    rcases hor with hh | hh
    · simp at hh
    · exact hh rfl

/-- Witness for C5 amended at a session holding one create (id 0), one dirty
update (id 1) and one dirty counter update (id 2), flushed unscoped. -/
theorem save_marker_clearing_witness :
    ∃ st2,
      batchState
        [⟨0, false, true, Option.none⟩,
         ⟨1, false, false, some [("t", PyVal.str "x")]⟩,
         ⟨2, true, false, some [("c", PyVal.int 3)]⟩] [0, 1, 2] [] = Except.ok st2 ∧
      (∀ i ∈ (saveBuckets
          [⟨0, false, true, Option.none⟩,
           ⟨1, false, false, some [("t", PyVal.str "x")]⟩,
           ⟨2, true, false, some [("c", PyVal.int 3)]⟩] [0, 1, 2] []).creates,
        ∃ e, findEnt st2 i = some e ∧ e.created = false ∧ e.dirties = Option.none) ∧
      (∀ i ∈ (saveBuckets
          [⟨0, false, true, Option.none⟩,
           ⟨1, false, false, some [("t", PyVal.str "x")]⟩,
           ⟨2, true, false, some [("c", PyVal.int 3)]⟩] [0, 1, 2] []).updates,
        ∃ e, findEnt st2 i = some e ∧ e.dirties = Option.none) ∧
      (∀ i ∈ (saveBuckets
          [⟨0, false, true, Option.none⟩,
           ⟨1, false, false, some [("t", PyVal.str "x")]⟩,
           ⟨2, true, false, some [("c", PyVal.int 3)]⟩] [0, 1, 2] []).counterUpdates,
        (∃ e, findEnt st2 i = some e ∧ e.dirties.isSome = true) ∧
        (∃ e, findEnt
          [⟨0, false, false, Option.none⟩, ⟨1, false, false, Option.none⟩,
           ⟨2, true, false, Option.none⟩] i = some e ∧ e.dirties = Option.none)) :=
  save_marker_clearing
    [⟨0, false, true, Option.none⟩,
     ⟨1, false, false, some [("t", PyVal.str "x")]⟩,
     ⟨2, true, false, some [("c", PyVal.int 3)]⟩] [0, 1, 2] []
    [SaveEvent.batchInsert 0, SaveEvent.batchUpdate 1 [("t", PyVal.str "x")],
     SaveEvent.batchExec, SaveEvent.execCounterUpdate 2 [("c", PyVal.int 3)]]
    [⟨0, false, false, Option.none⟩, ⟨1, false, false, Option.none⟩,
     ⟨2, true, false, Option.none⟩]
    (by rfl)

end CQLSession
